import Mathlib

/-!
Verification of the repository's specification.

The specification describes a concurrent in-memory song-record store
(RecordStore, QueryEngine, PersistenceAdapter).  The repository's `src/`
holds the grep-like program (`main.rs`); the store component itself is not
under `src/`, so its operations are modelled from the specification's own
words, as documented on each definition.  The grep program's
`search_in_file` is embedded directly from `src/src/main.rs`.

Concurrency note: the specification requires every store operation to be
linearizable (each operation takes effect at a single instant).  Under
that discipline any interleaving of concurrent calls is observationally a
sequence of atomic operations, so interleavings are modelled as sequences
of whole-operation steps.
-/

/-- Modelled from the spec: a song record
`{ id, title, artist, genre, play_count }` (spec §3). -/
structure Song where
  id : Nat
  title : String
  artist : String
  genre : String
  play_count : Nat
deriving DecidableEq, Repr

/-- Modelled from the spec: the RecordStore state — a mapping id → Song
(kept as the insertion sequence of records), a monotonically increasing id
counter and a visit counter (spec §3). -/
structure RecordStore where
  records : List Song
  idCounter : Nat
  visitCounter : Nat
deriving DecidableEq, Repr

/-- The empty store: no records, both counters zero. -/
def emptyStore : RecordStore := ⟨[], 0, 0⟩

/-- Modelled from the spec: `Insert(title, artist, genre) → Song` allocates
the next id, constructs a record with `play_count = 0`, inserts it into the
mapping and returns the stored record (spec §4.1).  Ids are 1-based so that
after N inserts from an empty store the issued ids are `{1..N}` and the
counter equals the number of ids issued so far (spec §8). -/
def RecordStore.Insert (st : RecordStore) (t a g : String) : Song × RecordStore :=
  let newId := st.idCounter + 1
  let song : Song := ⟨newId, t, a, g, 0⟩
  (song, ⟨st.records ++ [song], newId, st.visitCounter⟩)

/-- Look up a record by id in the store's mapping. -/
def RecordStore.lookup (st : RecordStore) (i : Nat) : Option Song :=
  st.records.find? (fun s => s.id == i)

/-- Modelled from the spec: `IncrementPlay(id) → Option<Song>` looks up the
record by id; if present, atomically increments its play_count and returns
the updated record; if absent returns "not found" (`none`) with no state
change (spec §4.1). -/
def RecordStore.IncrementPlay (st : RecordStore) (i : Nat) : Option Song × RecordStore :=
  match st.lookup i with
  | none => (none, st)
  | some s =>
    let s2 : Song := { s with play_count := s.play_count + 1 }
    (some s2, { st with records := st.records.map (fun r => if r.id == i then s2 else r) })

/-- Run a sequence of Insert calls (title, artist, genre triples), returning
the list of issued ids and the final store.  Models any linearized sequence
of successful Insert calls. -/
def runInserts (st : RecordStore) : List (String × String × String) → List Nat × RecordStore
  | [] => ([], st)
  | op :: ops =>
    let r := st.Insert op.1 op.2.1 op.2.2
    let rest := runInserts r.2 ops
    (r.1.id :: rest.1, rest.2)

/-- Apply `IncrementPlay i` to the store `k` times in sequence: the
linearization of any interleaving of `k` concurrent IncrementPlay calls on
the same id (spec §4.1, §5). -/
def iterIncrement (i : Nat) (st : RecordStore) : Nat → RecordStore
  | 0 => st
  | k + 1 => iterIncrement i (st.IncrementPlay i).2 k

/-- Modelled from the spec: the value a constraint key selects from a
record.  Recognized field names are `title`, `artist`, `genre`; any other
key selects nothing (spec §4.2). -/
def fieldValue (s : Song) (f : String) : Option String :=
  if f = "title" then some s.title
  else if f = "artist" then some s.artist
  else if f = "genre" then some s.genre
  else none

/-- Modelled from the spec: a field constraint `(key, value)` matches a
record iff the record's field named by the key contains the value as a
substring; an unrecognized key is an unsatisfiable condition (spec §4.2).
Substring matching is case-sensitive (the spec flags case policy as an
implementer's documented choice, §9). -/
def constraintMatches (s : Song) (c : String × String) : Bool :=
  match fieldValue s c.1 with
  | some v => decide (c.2.toList <:+: v.toList)
  | none => false

/-- Modelled from the spec: `Filter(records, constraints)` keeps exactly
the records matching all constraints (logical AND), in the input order
(spec §4.2). -/
def QueryEngine.Filter (records : List Song) (constraints : List (String × String)) : List Song :=
  records.filter (fun s => constraints.all (fun c => constraintMatches s c))

/-- Modelled from the spec: `Save(records)` serializes the full current set
of records to the durable file, overwriting previous content (spec §4.3).
The file's contents are modelled as the serialized record sequence. -/
def Save (records : List Song) : List Song := records

/-- Fold a loaded record sequence into the id → Song mapping: later entries
overwrite earlier ones with the same id ("last one wins", spec §4.3). -/
def loadRecords (recs : List Song) : Nat → Option Song :=
  recs.foldl (fun m s => fun i => if i = s.id then some s else m i) (fun _ => none)

/-- Modelled from the spec: `Load() → mapping of id→Song`.  The durable
file is `none` when missing, in which case Load returns the empty
collection rather than an error; duplicate ids resolve last-one-wins
(spec §4.3). -/
def Load (file : Option (List Song)) : Nat → Option Song :=
  match file with
  | none => fun _ => none
  | some recs => loadRecords recs

/-! Embedding of the grep-like program (`src/src/main.rs`).  File I/O is
abstracted: a file is its list of lines, as produced by
`BufReader::lines()`. -/

/-- The `Config` struct of `main.rs` (the fields the search uses; `files`
and `recursive` drive only file discovery in `get_files`). -/
structure Config where
  pattern : String
  ignore_case : Bool
  line_number : Bool
  invert_match : Bool
  print_filename : Bool
  colored_output : Bool
deriving DecidableEq, Repr

/-- Models `regex_syntax::is_meta_character`: the characters that
`regex::escape` protects with a backslash. -/
def isMetaCharacter (c : Char) : Bool :=
  c = '\\' || c = '.' || c = '+' || c = '*' || c = '?' || c = '(' || c = ')' ||
  c = '|' || c = '[' || c = ']' || c = '\x7b' || c = '\x7d' || c = '^' ||
  c = '$' || c = '#' || c = '&' || c = '-' || c = '~'

/-- Models `regex::escape`: prepend a backslash to every meta character. -/
def regexEscape : List Char → List Char
  | [] => []
  | c :: rest =>
    if isMetaCharacter c then '\\' :: c :: regexEscape rest
    else c :: regexEscape rest

/-- Models the fragment of the regex grammar that `search_in_file` can
produce: a pattern consisting only of plain literal characters and
backslash escapes denotes a literal character sequence.  `none` means the
pattern is not such a plain literal sequence (an unescaped meta character
would act as an operator, or a trailing backslash is a syntax error), so it
is outside this model; escaped patterns never fall there. -/
def literalOf : List Char → Option (List Char)
  | [] => some []
  | c :: rest =>
    if c = '\\' then
      match rest with
      | [] => none
      | d :: rest2 => (literalOf rest2).map (fun l => d :: l)
    else if isMetaCharacter c then none
    else (literalOf rest).map (fun l => c :: l)

/-- Models `RegexBuilder::new(&regex::escape(pattern)) ... .build()`:
the compiled matcher of an escaped pattern, namely the literal character
sequence it searches for.  `none` models a build failure (the source
unwraps it, i.e. panics). -/
def buildRegex (pattern : String) : Option (List Char) :=
  literalOf (regexEscape pattern.toList)

/-- Case folding applied on both sides when `case_insensitive` is set. -/
def foldCase (ic : Bool) (c : Char) : Char :=
  if ic then c.toLower else c

/-- Models `regex.is_match(&line)` for the regex built in `search_in_file`
(`main.rs` lines 154–162): a literal matcher matches iff its character
sequence occurs as a contiguous substring of the line, under case folding
when `case_insensitive` was set.  A build failure (unreachable, see the
never-panics theorem) is modelled as no match. -/
def isMatchEsc (pattern line : String) (ic : Bool) : Bool :=
  match buildRegex pattern with
  | some lit => decide ((lit.map (foldCase ic)) <:+: (line.toList.map (foldCase ic)))
  | none => false

/-- Models `colored`'s `.red()` on the matched text: wrap in the ANSI red
escape sequences. -/
def redWrap (s : List Char) : List Char :=
  '\x1b' :: '[' :: '3' :: '1' :: 'm' :: (s ++ ['\x1b', '[', '0', 'm'])

/-- Models `regex.replace_all(&line, caps[0].red())` for the literal
matcher: replace each leftmost non-overlapping occurrence of the pattern
(under case folding) with the red-wrapped original matched text.  An empty
pattern matches the empty string at every position. -/
def replaceAllRed (pat : List Char) (ic : Bool) : List Char → List Char
  | [] => if pat.isEmpty then redWrap [] else []
  | c :: rest =>
    if _h : pat.isEmpty then redWrap [] ++ c :: replaceAllRed pat ic rest
    else if (pat.map (foldCase ic)).isPrefixOf ((c :: rest).map (foldCase ic)) then
      redWrap ((c :: rest).take pat.length) ++ replaceAllRed pat ic ((c :: rest).drop pat.length)
    else c :: replaceAllRed pat ic rest
termination_by s => s.length
decreasing_by
  all_goals simp only [List.length_drop, List.length_cons, List.length_nil]
  all_goals try omega
  all_goals
    have hp : 0 < pat.length := by
      cases pat with
      | nil => simp at _h
      | cons a l => simp
    omega

/-- The colored-output branch of `search_in_file` (`main.rs` lines
181–187): the line with every match of the built literal regex wrapped in
red. -/
def colorize (cfg : Config) (line : String) : String :=
  match buildRegex cfg.pattern with
  | some lit => String.mk (replaceAllRed lit cfg.ignore_case line.toList)
  | none => line

/-- One formatted output line of `search_in_file` (`main.rs` lines
167–193): optional `filename: ` prefix, optional 1-based `line_number: `
prefix, then the (possibly colorized) line. -/
def formatLine (filename : String) (cfg : Config) (index : Nat) (line : String) : String :=
  let l1 := if cfg.print_filename then "" ++ filename ++ ": " else ""
  let l2 := if cfg.line_number then l1 ++ toString (index + 1) ++ ": " else l1
  if cfg.colored_output then l2 ++ colorize cfg line else l2 ++ line

/-- The loop of `search_in_file` (`main.rs` lines 160–195): iterate over
the enumerated lines, keep a line iff `matched`, pushing its formatted form
onto `results`. -/
def searchLoop (filename : String) (cfg : Config) : Nat → List String → List String → List String
  | _, [], results => results
  | index, line :: rest, results =>
    let is_match := isMatchEsc cfg.pattern line cfg.ignore_case
    let matched := if cfg.invert_match then !is_match else is_match
    searchLoop filename cfg (index + 1) rest
      (if matched then results ++ [formatLine filename cfg index line] else results)

/-- `search_in_file` (`main.rs` lines 145–197) on a successfully opened
file, its lines given as a list: appends the formatted matching lines to
`results`. -/
def search_in_file (filename : String) (cfg : Config) (lines : List String)
    (results : List String) : List String :=
  searchLoop filename cfg 0 lines results

/-! Helper lemmas. -/

theorem runInserts_ids (ops : List (String × String × String)) :
    ∀ st : RecordStore,
      (runInserts st ops).1 = List.range' (st.idCounter + 1) ops.length ∧
      (runInserts st ops).2.idCounter = st.idCounter + ops.length := by
  induction ops with
  | nil => intro st; simp [runInserts]
  | cons op ops ih =>
    intro st
    have h := ih ⟨st.records ++ [⟨st.idCounter + 1, op.1, op.2.1, op.2.2, 0⟩],
      st.idCounter + 1, st.visitCounter⟩
    simp only [runInserts, RecordStore.Insert, List.length_cons] at h ⊢
    refine ⟨?_, ?_⟩
    · rw [h.1]
      simp [List.range', Nat.add_assoc]
    · rw [h.2]
      omega

/-- `IncrementPlay` on an id that is present: the one record with that id
gets its play_count bumped and is returned; lookup afterwards sees it. -/
theorem find?_update_eq (l : List Song) (i : Nat) (s2 : Song) (h2 : s2.id = i) :
    (l.map (fun r => if r.id == i then s2 else r)).find? (fun r => r.id == i) =
      (l.find? (fun r => r.id == i)).map (fun _ => s2) := by
  induction l with
  | nil => rfl
  | cons a l ih =>
    by_cases ha : (a.id == i) = true
    · simp [List.find?, ha, h2]
    · simp only [Bool.not_eq_true] at ha
      have hfa : (if (a.id == i) = true then s2 else a) = a := by simp [ha]
      rw [List.map_cons, hfa, List.find?_cons_of_neg _ (by simp [ha]),
        List.find?_cons_of_neg _ (by simp [ha]), ih]

theorem lookup_incrementPlay_some (st : RecordStore) (i : Nat) (s : Song)
    (h : st.lookup i = some s) :
    (st.IncrementPlay i).2.lookup i =
      some { s with play_count := s.play_count + 1 } := by
  have hid : s.id = i := by
    have := List.find?_some h
    simpa using this
  have h' : List.find? (fun r => r.id == i) st.records = some s := h
  simp only [RecordStore.IncrementPlay, RecordStore.lookup, h']
  rw [find?_update_eq _ _ _ (by simp [hid]), h']
  rfl

theorem loadRecords_append_single (recs : List Song) (b : Song) (i : Nat) :
    loadRecords (recs ++ [b]) i = if i = b.id then some b else loadRecords recs i := by
  simp [loadRecords, List.foldl_append]

theorem loadRecords_some_mem (recs : List Song) :
    ∀ i s, loadRecords recs i = some s → s ∈ recs ∧ s.id = i := by
  induction recs using List.reverseRecOn with
  | nil => intro i s h; simp [loadRecords] at h
  | append_singleton T t ih =>
    intro i s h
    rw [loadRecords_append_single] at h
    by_cases hi : i = t.id
    · rw [if_pos hi] at h
      cases h
      exact ⟨by simp, hi.symm⟩
    · rw [if_neg hi] at h
      obtain ⟨hm, hid⟩ := ih i s h
      exact ⟨by simp [hm], hid⟩

theorem loadRecords_lookup_of_nodup (recs : List Song)
    (hnd : (recs.map Song.id).Nodup) :
    ∀ s ∈ recs, loadRecords recs s.id = some s := by
  induction recs using List.reverseRecOn with
  | nil => intro s h; simp at h
  | append_singleton T t ih =>
    have hmap : (T ++ [t]).map Song.id = T.map Song.id ++ [t.id] := by simp
    rw [hmap] at hnd
    have hndT : (T.map Song.id).Nodup := (List.nodup_append.mp hnd).1
    have hnotin : t.id ∉ T.map Song.id := by
      intro hmem
      have := List.nodup_append.mp hnd
      exact this.2.2 hmem (by simp)
    intro s hs
    rw [loadRecords_append_single]
    rcases List.mem_append.mp hs with hsT | hst
    · have hne : s.id ≠ t.id := by
        intro he
        exact hnotin (he ▸ List.mem_map_of_mem Song.id hsT)
      rw [if_neg hne]
      exact ih hndT s hsT
    · have : s = t := by simpa using hst
      subst this
      simp

/-! Claim theorems. -/

/-- C1: starting from the empty store, any sequence of N successful Insert
calls issues exactly the ids 1..N (in order, hence no duplicate and no
gap), and the final id counter equals N, the number of ids issued. -/
theorem C1_insert_ids (ops : List (String × String × String)) :
    (runInserts emptyStore ops).1 = List.range' 1 ops.length ∧
    (runInserts emptyStore ops).1.Nodup ∧
    (runInserts emptyStore ops).2.idCounter = ops.length := by
  have h := runInserts_ids ops emptyStore
  simp only [emptyStore] at h
  refine ⟨by simpa using h.1, ?_, by simpa using h.2⟩
  rw [(by simpa using h.1 : (runInserts emptyStore ops).1 = List.range' 1 ops.length)]
  exact List.nodup_range' 1 ops.length

/-- C2: IncrementPlay on an id that is not present in the record mapping
returns "not found" and leaves the whole store (records, id counter, visit
counter) unchanged. -/
theorem C2_incrementPlay_notFound (st : RecordStore) (i : Nat)
    (h : ∀ s ∈ st.records, s.id ≠ i) :
    st.IncrementPlay i = (none, st) := by
  have hl : st.lookup i = none := by
    apply List.find?_eq_none.mpr
    intro s hs
    simp [h s hs]
  simp [RecordStore.IncrementPlay, hl]

/-- Witness for C2 at a concrete store and absent id. -/
theorem C2_incrementPlay_notFound_witness :
    RecordStore.IncrementPlay ⟨[⟨1, "a", "b", "c", 4⟩], 1, 2⟩ 5 =
      (none, ⟨[⟨1, "a", "b", "c", 4⟩], 1, 2⟩) :=
  C2_incrementPlay_notFound ⟨[⟨1, "a", "b", "c", 4⟩], 1, 2⟩ 5 (by decide)

/-- C4: Filter with an empty constraint set returns all records, in the
input (store) order. -/
theorem C4_filter_empty (records : List Song) :
    QueryEngine.Filter records [] = records := by
  simp [QueryEngine.Filter]

/-- C3: Filter keeps exactly the records matching every constraint
(logical AND), results are a sublist of the input (hence in input order),
and a constraint whose key is not `title`, `artist` or `genre` excludes
every record, emptying the result. -/
theorem C3_filter_semantics (recs : List Song) (cs : List (String × String)) :
    (∀ r, r ∈ QueryEngine.Filter recs cs ↔
        r ∈ recs ∧ ∀ c ∈ cs, constraintMatches r c = true) ∧
    (QueryEngine.Filter recs cs).Sublist recs ∧
    (∀ c ∈ cs, c.1 ≠ "title" → c.1 ≠ "artist" → c.1 ≠ "genre" →
      QueryEngine.Filter recs cs = []) := by
  refine ⟨?_, List.filter_sublist recs, ?_⟩
  · intro r
    rw [QueryEngine.Filter, List.mem_filter, List.all_eq_true]
  · intro c hc h1 h2 h3
    apply List.filter_eq_nil_iff.mpr
    intro r _
    intro hall
    have hcm := List.all_eq_true.mp hall c hc
    rw [constraintMatches, fieldValue, if_neg h1, if_neg h2, if_neg h3] at hcm
    simp at hcm

/-- Witness for C3: a genre constraint keeps a matching record; an
unrecognized key filters everything out. -/
theorem C3_filter_semantics_witness :
    Song.mk 1 "t" "a" "Rock" 0 ∈
        QueryEngine.Filter [Song.mk 1 "t" "a" "Rock" 0] [("genre", "Rock")] ∧
    QueryEngine.Filter [Song.mk 1 "t" "a" "Rock" 0] [("album", "Rock")] = [] :=
  ⟨((C3_filter_semantics [Song.mk 1 "t" "a" "Rock" 0] [("genre", "Rock")]).1
      (Song.mk 1 "t" "a" "Rock" 0)).mpr ⟨by decide, by decide⟩,
    (C3_filter_semantics [Song.mk 1 "t" "a" "Rock" 0] [("album", "Rock")]).2.2
      ("album", "Rock") (by decide) (by decide) (by decide) (by decide)⟩

/-- C5: for a non-empty collection S with unique ids, Load of the file
produced by Save(S) maps each id of S to the record of S with exactly its
field values, and maps nothing outside the ids of S. -/
theorem C5_load_save_roundtrip (S : List Song) (hne : S ≠ [])
    (hnd : (S.map Song.id).Nodup) :
    (∀ s ∈ S, Load (some (Save S)) s.id = some s) ∧
    (∀ i s, Load (some (Save S)) i = some s → s ∈ S ∧ s.id = i) := by
  have _ := hne
  constructor
  · intro s hs
    exact loadRecords_lookup_of_nodup S hnd s hs
  · intro i s h
    exact loadRecords_some_mem S i s h

/-- Witness for C5 at a concrete two-record collection. -/
theorem C5_load_save_roundtrip_witness :
    Load (some (Save [Song.mk 1 "t" "a" "g" 5, Song.mk 2 "u" "b" "h" 0])) 1 =
        some (Song.mk 1 "t" "a" "g" 5) ∧
    Load (some (Save [Song.mk 1 "t" "a" "g" 5, Song.mk 2 "u" "b" "h" 0])) 2 =
        some (Song.mk 2 "u" "b" "h" 0) :=
  ⟨(C5_load_save_roundtrip [Song.mk 1 "t" "a" "g" 5, Song.mk 2 "u" "b" "h" 0]
      (by decide) (by decide)).1 (Song.mk 1 "t" "a" "g" 5) (by decide),
    (C5_load_save_roundtrip [Song.mk 1 "t" "a" "g" 5, Song.mk 2 "u" "b" "h" 0]
      (by decide) (by decide)).1 (Song.mk 2 "u" "b" "h" 0) (by decide)⟩

theorem loadRecords_append_no_id (L : List Song) (i : Nat) :
    ∀ zs : List Song, (∀ c ∈ zs, c.id ≠ i) →
      loadRecords (L ++ zs) i = loadRecords L i := by
  intro zs
  induction zs using List.reverseRecOn with
  | nil => intro _; simp
  | append_singleton Z t ih =>
    intro hz
    have hsplit : L ++ (Z ++ [t]) = (L ++ Z) ++ [t] := by simp
    rw [hsplit, loadRecords_append_single,
      if_neg (fun he => hz t (by simp) he.symm)]
    exact ih (fun c hc => hz c (by simp [hc]))

/-- C6: Load of a missing file is the empty collection (no error is
modelled — Load is total), and when the file holds two records with the
same id the mapping holds exactly one record at that id, with the later
entry's values (last one wins): here `b` is the later of the two and no
entry after `b` reuses the id, while the records before, between and after
the pair are arbitrary. -/
theorem C6_load_missing_and_duplicate :
    (∀ i, Load none i = none) ∧
    (∀ (xs ys zs : List Song) (a b : Song), a.id = b.id →
      (∀ c ∈ zs, c.id ≠ b.id) →
      Load (some (xs ++ a :: ys ++ b :: zs)) a.id = some b) := by
  refine ⟨fun i => rfl, ?_⟩
  intro xs ys zs a b hab hz
  have hsplit : xs ++ a :: ys ++ b :: zs = ((xs ++ a :: ys) ++ [b]) ++ zs := by
    simp
  rw [Load, hsplit, loadRecords_append_no_id _ _ zs (fun c hc => hab ▸ hz c hc),
    loadRecords_append_single, if_pos hab]

/-- Witness for C6: duplicate id 3 followed by an unrelated record; the
later duplicate's values win. -/
theorem C6_load_missing_and_duplicate_witness :
    Load none 7 = none ∧
    Load (some ([] ++ Song.mk 3 "x" "y" "z" 1 :: [] ++
        Song.mk 3 "p" "q" "r" 9 :: [Song.mk 5 "c" "d" "e" 0]))
        (Song.mk 3 "x" "y" "z" 1).id = some (Song.mk 3 "p" "q" "r" 9) :=
  ⟨C6_load_missing_and_duplicate.1 7,
    C6_load_missing_and_duplicate.2 [] [] [Song.mk 5 "c" "d" "e" 0]
      (Song.mk 3 "x" "y" "z" 1) (Song.mk 3 "p" "q" "r" 9) (by decide) (by decide)⟩

/-- C7: for an existing id, any linearized interleaving of K IncrementPlay
calls on that id leaves the record present with all fields unchanged except
play_count, which equals its initial value plus K: no increment is lost. -/
theorem C7_increment_no_lost_updates (K : Nat) :
    ∀ (st : RecordStore) (i : Nat) (s : Song), st.lookup i = some s →
      (iterIncrement i st K).lookup i =
        some ⟨s.id, s.title, s.artist, s.genre, s.play_count + K⟩ := by
  induction K with
  | zero => intro st i s h; simpa using h
  | succ k ih =>
    intro st i s h
    have h1 := lookup_incrementPlay_some st i s h
    have h2 := ih (st.IncrementPlay i).2 i _ h1
    rw [iterIncrement, h2]
    simp only []
    congr 1
    simp [Nat.add_comm, Nat.add_assoc, Nat.add_left_comm]

/-- Witness for C7: three increments on id 1 take play_count from 5 to 8. -/
theorem C7_increment_no_lost_updates_witness :
    RecordStore.lookup (iterIncrement 1 ⟨[⟨1, "t", "a", "g", 5⟩], 1, 0⟩ 3) 1 =
      some ⟨1, "t", "a", "g", 5 + 3⟩ :=
  C7_increment_no_lost_updates 3 ⟨[⟨1, "t", "a", "g", 5⟩], 1, 0⟩ 1
    ⟨1, "t", "a", "g", 5⟩ (by decide)

theorem literalOf_regexEscape (l : List Char) :
    literalOf (regexEscape l) = some l := by
  induction l with
  | nil => rfl
  | cons c l ih =>
    by_cases hm : isMetaCharacter c = true
    · simp [regexEscape, hm, literalOf, ih]
    · have hcb : c ≠ '\\' := by
        intro he
        rw [he] at hm
        exact hm (by decide)
      rw [regexEscape, if_neg (by simp [hm]), literalOf.eq_def]
      simp [hcb, hm, ih]

/-- C9: building the regex never fails — for every pattern string, the
escaped pattern compiles, to the literal matcher for that very string, so
the `unwrap` in `search_in_file` cannot panic. -/
theorem C9_regex_build_never_fails (pattern : String) :
    buildRegex pattern = some pattern.toList :=
  literalOf_regexEscape pattern.toList

theorem searchLoop_eq (fn : String) (cfg : Config) (lines : List String) :
    ∀ (idx : Nat) (res : List String),
      searchLoop fn cfg idx lines res =
        res ++ ((List.enumFrom idx lines).filter
            (fun p => if cfg.invert_match then ! isMatchEsc cfg.pattern p.2 cfg.ignore_case
              else isMatchEsc cfg.pattern p.2 cfg.ignore_case)).map
          (fun p => formatLine fn cfg p.1 p.2) := by
  induction lines with
  | nil => intro idx res; simp [searchLoop]
  | cons line rest ih =>
    intro idx res
    simp only [searchLoop]
    rw [ih (idx + 1)]
    have he : List.enumFrom idx (line :: rest) =
        (idx, line) :: List.enumFrom (idx + 1) rest := rfl
    rw [he, List.filter_cons]
    by_cases hm : (if cfg.invert_match then ! isMatchEsc cfg.pattern line cfg.ignore_case
        else isMatchEsc cfg.pattern line cfg.ignore_case) = true
    · simp only [hm, if_true, List.map_cons]
      simp [List.append_assoc]
    · simp only [Bool.not_eq_true] at hm
      simp [hm]

theorem enumFrom_pairwise_fst {α : Type} (n : Nat) (l : List α) :
    List.Pairwise (fun a b => a.1 < b.1) (List.enumFrom n l) := by
  induction l generalizing n with
  | nil => simp
  | cons x xs ih =>
    refine List.Pairwise.cons ?_ (ih (n + 1))
    intro p hp
    obtain ⟨i, y⟩ := p
    have := (List.mem_enumFrom hp).1
    simpa using by omega

/-- C8: a line of the searched file contributes an output line exactly when
the literal-substring condition XOR `invert_match` holds: the search result
appends, in order, the formatted forms of exactly those enumerated lines
for which the match (literal containment, case-folded when `ignore_case`)
xored with `invert_match` is true; and the built matcher tests nothing but
literal substring containment of the original pattern, since the pattern
was escaped. -/
theorem C8_search_matches_literal_xor (fn : String) (cfg : Config)
    (lines res : List String) :
    search_in_file fn cfg lines res =
      res ++ ((lines.enum.filter
          (fun p => Bool.xor (isMatchEsc cfg.pattern p.2 cfg.ignore_case)
            cfg.invert_match)).map
        (fun p => formatLine fn cfg p.1 p.2)) ∧
    (∀ line : String, isMatchEsc cfg.pattern line cfg.ignore_case =
      decide ((cfg.pattern.toList.map (foldCase cfg.ignore_case)) <:+:
        (line.toList.map (foldCase cfg.ignore_case)))) := by
  constructor
  · rw [search_in_file, searchLoop_eq, ← List.enum_eq_enumFrom]
    have hxor : ∀ m inv : Bool, (if inv then !m else m) = Bool.xor m inv := by decide
    simp only [hxor]
  · intro line
    rw [isMatchEsc, buildRegex, literalOf_regexEscape]

/-- C10: with the line-number option set, the number prefixed to each
matching line is its 0-based enumeration index plus one, that index is the
line's position in the file, and the matched lines are appended in file
order (their indices are strictly increasing). -/
theorem C10_line_numbers (fn : String) (cfg : Config) (lines res : List String)
    (hln : cfg.line_number = true) :
    search_in_file fn cfg lines res =
      res ++ ((lines.enum.filter
          (fun p => if cfg.invert_match then ! isMatchEsc cfg.pattern p.2 cfg.ignore_case
            else isMatchEsc cfg.pattern p.2 cfg.ignore_case)).map
        (fun p => formatLine fn cfg p.1 p.2)) ∧
    (∀ p ∈ lines.enum.filter
        (fun p => if cfg.invert_match then ! isMatchEsc cfg.pattern p.2 cfg.ignore_case
          else isMatchEsc cfg.pattern p.2 cfg.ignore_case),
      lines[p.1]? = some p.2 ∧
      formatLine fn cfg p.1 p.2 =
        (if cfg.print_filename then "" ++ fn ++ ": " else "") ++
          toString (p.1 + 1) ++ ": " ++
          (if cfg.colored_output then colorize cfg p.2 else p.2)) ∧
    List.Pairwise (fun a b => a < b)
      ((lines.enum.filter
          (fun p => if cfg.invert_match then ! isMatchEsc cfg.pattern p.2 cfg.ignore_case
            else isMatchEsc cfg.pattern p.2 cfg.ignore_case)).map Prod.fst) := by
  refine ⟨?_, ?_, ?_⟩
  · rw [search_in_file, searchLoop_eq, ← List.enum_eq_enumFrom]
  · intro p hp
    obtain ⟨i, line⟩ := p
    have hmem : (i, line) ∈ lines.enum := (List.mem_filter.mp hp).1
    rw [List.enum_eq_enumFrom] at hmem
    obtain ⟨h1, h2, h3⟩ := List.mem_enumFrom hmem
    constructor
    · rw [List.getElem?_eq_getElem (by omega)]
      simpa using congrArg some h3.symm
    · cases hco : cfg.colored_output <;> simp [formatLine, hln, hco]
  · rw [List.pairwise_map, List.enum_eq_enumFrom]
    exact List.Pairwise.filter _ (enumFrom_pairwise_fst 0 lines)

/-- Witness for C10 at a concrete configuration and file: pattern `b`,
line numbers on, lines 1 and 3 match and are printed with their 1-based
numbers, in file order. -/
theorem C10_line_numbers_witness :
    search_in_file "f.txt" ⟨"b", false, true, false, false, false⟩
      ["abc", "xyz", "bbb"] [] = ["1: abc", "3: bbb"] := by
  have h := C10_line_numbers "f.txt" ⟨"b", false, true, false, false, false⟩
    ["abc", "xyz", "bbb"] [] rfl
  rw [h.1]
  rfl
